import Mathlib

/-!
Verification of the motor-monitoring signal pipeline
(`src/raspberry_pi/Fault_Detector.py`, `main.py`, `motor_gui.py`).

Numeric code is embedded over exact arithmetic: the order-domain resampler,
the IIR filter recursion, the EMA fallback and the queue-drain loop are
modelled over `ℚ` (they are pure rational arithmetic), while the Park
transform, trajectory scaling, fault scoring and the vibration monitor are
modelled over `ℝ` because they take square roots; those definitions are
necessarily noncomputable, and concrete instances are evaluated through
`simp`/`norm_num`.

The filter coefficients of `MotorFaultDetector.__init__` are produced by
`scipy.signal.ellip`/`iirnotch` (irrational numbers computed outside this
repository), so `apply_filters` is embedded with the four coefficient
vectors as parameters.
-/

namespace FaultDetector

/-! ### Order-domain resampler (`apply_odt`), over `ℚ` -/

/-- Python `int(q)`: truncation toward zero (used by
`apply_odt`: `S = int((self.fs_target * T) / self.f0_target)`). -/
def pyint (q : ℚ) : ℤ := if 0 ≤ q then ⌊q⌋ else ⌈q⌉

/-- The target sample count `S` computed by `apply_odt`:
`T = (N * f0_detected) / fs_original`, `S = int((fs_target * T) / f0_target)`. -/
def odtS (fsT f0T : ℚ) (N : ℕ) (fsO f0D : ℚ) : ℤ :=
  pyint ((fsT * ((N * f0D) / fsO)) / f0T)

/-- `np.linspace(0, 1, S)`: `S` evenly spaced points from 0 to 1.
For `S ≥ 2` the points are `i/(S-1)`; for `S = 1` numpy returns `[0.0]`,
which the formula also yields since `0/0 = 0` in `ℚ`; for `S = 0` the
list is empty. -/
def linspace01 (S : ℕ) : List ℚ :=
  (List.range S).map (fun i : ℕ => (i : ℚ) / ((S : ℚ) - 1))

/-- Linear interpolation of `scipy.interpolate.interp1d(x_old, values,
kind='linear')` evaluated at `t`, where `x_old = np.linspace(0, 1, N)` is
the uniform grid over the input's index domain: with `p = t*(N-1)` the
query falls in segment `j = min ⌊p⌋ (N-2)` and the value is the affine
blend of `values[j]` and `values[j+1]`. -/
def interpAt (values : List ℚ) (t : ℚ) : ℚ :=
  let N := values.length
  let p := t * ((N : ℚ) - 1)
  let j := min (⌊p⌋.toNat) (N - 2)
  values.getD j 0 + (p - (j : ℚ)) * (values.getD (j + 1) 0 - values.getD j 0)

/-- `MotorFaultDetector.apply_odt`: computes `T` and `S`, then linearly
interpolates the input onto `S` points of `[0,1]`.  `none` models the
exceptions the call can raise: `interp1d` requires at least 2 input
points, and `np.linspace` rejects a negative sample count. -/
def apply_odt (fsT f0T : ℚ) (values : List ℚ) (fsO f0D : ℚ) : Option (List ℚ) :=
  let S := odtS fsT f0T values.length fsO f0D
  if values.length < 2 then none
  else if S < 0 then none
  else some ((linspace01 S.toNat).map (interpAt values))

/-- The linear ramp `[0, 1, ..., N-1]`, the test signal of the spec. -/
def rampQ (N : ℕ) : List ℚ := (List.range N).map (fun i : ℕ => (i : ℚ))

/-! ### The IIR filter recursion (`scipy.signal.lfilter`), over `ℚ` -/

/-- Dot product of a coefficient vector against a history list that is
ordered most-recent-first (truncating at the shorter one, which models the
zero initial state of `lfilter` called without `zi`). -/
def dotRev (c hist : List ℚ) : ℚ := (List.zipWith (· * ·) c hist).sum

/-- The direct-form recursion of `scipy.signal.lfilter`:
`a0*y[n] = Σ b[k]*x[n-k] − Σ_{k≥1} a[k]*y[n-k]`, consuming the input one
sample at a time while accumulating the input history `xh` and output
history `yh` (most recent first). -/
def lfilterGo (b aT : List ℚ) (a0 : ℚ) : List ℚ → List ℚ → List ℚ → List ℚ
  | [], _, _ => []
  | x :: xs, xh, yh =>
    let xh2 := x :: xh
    let y := (dotRev b xh2 - dotRev aT yh) / a0
    y :: lfilterGo b aT a0 xs xh2 (y :: yh)

/-- `scipy.signal.lfilter(b, a, x)` with zero initial state, as called by
`apply_filters` (no `zi` argument, so every call starts from rest). -/
def lfilter (b a x : List ℚ) : List ℚ :=
  match a with
  | [] => []
  | a0 :: aT => lfilterGo b aT a0 x [] []

/-- `MotorFaultDetector.apply_filters`: the elliptic low-pass stage then
the notch stage, each a fresh `lfilter` batch call.  The coefficient
vectors `(eb, ea)` and `(nb, na)` are the `ellip`/`iirnotch` designs
computed once in `__init__`. -/
def apply_filters (eb ea nb na : List ℚ) (data : List ℚ) : List ℚ :=
  lfilter nb na (lfilter eb ea data)

/-! ### The caller's fallback policy (`main.py::callback_handler`) -/

/-- The EMA fallback of `callback_handler`: the first time it is seeded
with the raw Park value, afterwards `alpha*raw + (1-alpha)*state`. -/
def emaFallback (alpha raw : ℚ) (prev : Option ℚ) : ℚ :=
  match prev with
  | none => raw
  | some p => alpha * raw + (1 - alpha) * p

/-- One cycle's attempt at the full pipeline tail as `callback_handler`
uses it: resample, filter, then read the last sample
(`id_filtered_array[-1]`, an exception on an empty array). -/
def pipelineAttempt (fsT f0T : ℚ) (eb ea nb na : List ℚ)
    (values : List ℚ) (fsO f0D : ℚ) : Option ℚ :=
  ((apply_odt fsT f0T values fsO f0D).map (apply_filters eb ea nb na)).bind
    List.getLast?

/-- The value `callback_handler` emits as the "filtered" output of a
cycle: the pipeline's last sample if the attempt succeeded, otherwise the
EMA fallback. -/
def callbackEmit (attempt : Option ℚ) (alpha raw : ℚ) (prev : Option ℚ) : ℚ :=
  match attempt with
  | some v => v
  | none => emaFallback alpha raw prev

/-! ### The GUI drain loop (`motor_gui.py::MotorApp._poll_incoming`) -/

/-- The body of `_poll_incoming`'s drain loop: pop items one at a time,
processing each; after the 501st processed item (`processed > 500`) drain
the remainder keeping only the freshest (`latest`, which still holds the
item just processed when the queue is already empty) and process it too.
Returns the list of processed samples in processing order. -/
def drainLoop {α : Type} : List α → ℕ → List α → List α
  | [], _, acc => acc.reverse
  | item :: rest, processed, acc =>
    if 500 < processed + 1 then
      ((rest.getLast?.getD item) :: item :: acc).reverse
    else drainLoop rest (processed + 1) (item :: acc)

/-- The samples `_poll_incoming` processes in one drain cycle, given the
queue contents at the start of the cycle. -/
def pollProcessed {α : Type} (queue : List α) : List α := drainLoop queue 0 []

/-! ### Park transform, trajectory scaling, fault score, over `ℝ` -/

/-- `MotorFaultDetector.compute_park_vector`:
`id = sqrt(2/3)*ia − ib/sqrt(6) − ic/sqrt(6)`,
`iq = ib/sqrt(2) − ic/sqrt(2)`, elementwise over the sample arrays. -/
noncomputable def compute_park_vector (ia ib ic : List ℝ) : List ℝ × List ℝ :=
  (List.zipWith3 (fun a b c =>
      Real.sqrt (2/3) * a - b / Real.sqrt 6 - c / Real.sqrt 6) ia ib ic,
   List.zipWith (fun b c => b / Real.sqrt 2 - c / Real.sqrt 2) ib ic)

/-- The pointwise radius `r = np.sqrt(i_d**2 + i_q**2)` (also the Park
Vector Modulus of `least_squares_v1`). -/
noncomputable def radii (i_d i_q : List ℝ) : List ℝ :=
  List.zipWith (fun d q => Real.sqrt (d ^ 2 + q ^ 2)) i_d i_q

/-- `np.mean`: sum over length (`0` on the empty list, where numpy would
produce NaN; no claim touches that case). -/
noncomputable def meanR (l : List ℝ) : ℝ := l.sum / l.length

/-- `MotorFaultDetector.scale_trajectory`: divide both components by the
mean radius, or return the input unchanged when the mean radius is 0. -/
noncomputable def scale_trajectory (i_d i_q : List ℝ) : List ℝ × List ℝ :=
  let r_mean := meanR (radii i_d i_q)
  if r_mean = 0 then (i_d, i_q)
  else (i_d.map (· / r_mean), i_q.map (· / r_mean))

/-- The scoring step of `least_squares_v1` on a (scaled) trajectory:
`PVM = sqrt(id**2 + iq**2)`, `mse = np.mean((PVM - 1.0)**2)`. -/
noncomputable def mseScore (i_d i_q : List ℝ) : ℝ :=
  meanR ((radii i_d i_q).map (fun r => (r - 1) ^ 2))

/-- `MotorFaultDetector.least_squares_v1`: Park transform, scaling, then
the mean squared deviation of the PVM from the healthy baseline 1.0. -/
noncomputable def least_squares_v1 (ia ib ic : List ℝ) : ℝ :=
  let dq := compute_park_vector ia ib ic
  let s := scale_trajectory dq.1 dq.2
  mseScore s.1 s.2

/-- The discrete health classification of the spec (§4.6). -/
inductive HealthClass
  | Good
  | Fault
  deriving DecidableEq

/-- Modelled from the spec: the discrete classification derived from the
current-signature score.  The code under `src/` computes only the scalar
score (`least_squares_v1` returns `mse`; the GUI never classifies from
it); the spec derives Good/Fault by comparing the score against a
configured threshold, default below 1.0. -/
noncomputable def classify (threshold score : ℝ) : HealthClass :=
  if threshold < score then .Fault else .Good

/-! ### Vibration monitor (`motor_gui.py::MotorApp._process_data_point`),
constants from the module header of `motor_gui.py`. -/

def ACCEL_RUN_MAG_THRESHOLD : ℝ := 0.05
def ACCEL_BASELINE_SAMPLES : ℕ := 60
def ACCEL_WINDOW_SAMPLES : ℕ := 60
def ACCEL_SIGMA_MULTIPLIER : ℝ := 2.0
def ACCEL_FLOOR_G : ℝ := 0.01

/-- Appending to a `deque(maxlen=cap)`: the oldest entries fall off the
front once the capacity is exceeded. -/
def dequePush (cap : ℕ) (buf : List ℝ) (x : ℝ) : List ℝ :=
  let b := buf ++ [x]
  if cap < b.length then b.drop (b.length - cap) else b

/-- `list(buf)[-k:]`: the last `k` entries. -/
def lastN (l : List ℝ) (k : ℕ) : List ℝ := l.drop (l.length - k)

/-- `math.sqrt(sum(m*m for m in w) / len(w))`: RMS of a window. -/
noncomputable def rmsL (l : List ℝ) : ℝ :=
  Real.sqrt ((l.map (fun m => m * m)).sum / l.length)

/-- Population standard deviation as `_process_data_point` computes it. -/
noncomputable def stdL (l : List ℝ) : ℝ :=
  Real.sqrt ((l.map (fun m => (m - meanR l) ^ 2)).sum / l.length)

/-- The vibration-monitoring state held on `MotorApp`:
`_accel_mag_buf`, `_vibe_baseline_ready`, `_vibe_baseline_mean`,
`_vibe_baseline_std`, `_vibe_consec_high`, `_vibe_consec_clear`. -/
structure VibeState where
  buf : List ℝ
  ready : Bool
  baseMean : ℝ
  baseStd : ℝ
  high : ℕ
  clr : ℕ

/-- Result of one vibration evaluation: the updated state, whether a
high-vibration warning was appended, and whether the baseline was cleared
for relearning. -/
structure VibeStep where
  state : VibeState
  warned : Prop
  cleared : Prop

/-- The warning threshold of `_process_data_point`:
`baseline + max(ACCEL_FLOOR_G, ACCEL_SIGMA_MULTIPLIER * σ)`. -/
noncomputable def vibeThreshold (s : VibeState) : ℝ :=
  s.baseMean + max ACCEL_FLOOR_G (ACCEL_SIGMA_MULTIPLIER * s.baseStd)

/-- The sliding-window RMS an evaluation computes: RMS of the last 60
magnitudes after the incoming one is appended. -/
noncomputable def vibeRms (s : VibeState) (mag : ℝ) : ℝ :=
  rmsL (lastN (dequePush (ACCEL_WINDOW_SAMPLES * 3) s.buf mag)
    ACCEL_WINDOW_SAMPLES)

/-- The vibration-monitoring section of `_process_data_point` for one
incoming acceleration magnitude: append to the magnitude buffer; while no
baseline is ready, learn one from the last 60 magnitudes once the buffer
is full enough and their RMS shows the motor running; with a baseline,
compare the window RMS against the threshold, update the
consecutive-high/consecutive-clear counters, warn once the high streak
reaches 3, and clear the baseline once the clear streak reaches 20 with
the RMS below half the run threshold. -/
noncomputable def vibeStep (s : VibeState) (mag : ℝ) : VibeStep :=
  let buf := dequePush (ACCEL_WINDOW_SAMPLES * 3) s.buf mag
  if s.ready then
    if ACCEL_WINDOW_SAMPLES ≤ buf.length then
      let r := vibeRms s mag
      let high := if vibeThreshold s < r then s.high + 1 else 0
      let clr := if vibeThreshold s < r then 0 else s.clr + 1
      if 20 ≤ clr ∧ r < ACCEL_RUN_MAG_THRESHOLD / 2 then
        ⟨⟨buf, false, s.baseMean, s.baseStd, 0, 0⟩, 3 ≤ high, True⟩
      else
        ⟨⟨buf, true, s.baseMean, s.baseStd, high, clr⟩, 3 ≤ high, False⟩
    else ⟨⟨buf, s.ready, s.baseMean, s.baseStd, s.high, s.clr⟩, False, False⟩
  else
    if ACCEL_BASELINE_SAMPLES ≤ buf.length then
      let recent := lastN buf ACCEL_BASELINE_SAMPLES
      if ACCEL_RUN_MAG_THRESHOLD < rmsL recent then
        ⟨⟨buf, true, meanR recent, max (stdL recent) (1e-6), 0, 0⟩,
          False, False⟩
      else ⟨⟨buf, s.ready, s.baseMean, s.baseStd, s.high, s.clr⟩, False, False⟩
    else ⟨⟨buf, s.ready, s.baseMean, s.baseStd, s.high, s.clr⟩, False, False⟩

/-- The state after feeding magnitudes `mags 0, …, mags (n-1)` to the
vibration monitor. -/
noncomputable def vibeIter (s : VibeState) (mags : ℕ → ℝ) : ℕ → VibeState
  | 0 => s
  | n + 1 => (vibeStep (vibeIter s mags n) (mags n)).state

/-- The vibration state created in `MotorApp.__init__`: empty magnitude
buffer, no baseline, zero counters. -/
def vibeInit : VibeState := ⟨[], false, 0, 0, 0, 0⟩

/-- The outcome of the `n`-th evaluation along a magnitude stream. -/
noncomputable def vibeStepAt (s : VibeState) (mags : ℕ → ℝ) (n : ℕ) :
    VibeStep :=
  vibeStep (vibeIter s mags n) (mags n)

/-- The window RMS computed by the `n`-th evaluation. -/
noncomputable def vibeRmsAt (s : VibeState) (mags : ℕ → ℝ) (n : ℕ) : ℝ :=
  vibeRms (vibeIter s mags n) (mags n)

/-- The `n`-th evaluation sees its window RMS exceed the warning
threshold. -/
noncomputable def vibeExceedAt (s : VibeState) (mags : ℕ → ℝ) (n : ℕ) :
    Prop :=
  vibeThreshold (vibeIter s mags n) < vibeRmsAt s mags n

open Classical in
/-- Length of the maximal run of indices satisfying `P` that ends just
before `n` — the value the consecutive counters of `_process_data_point`
track. -/
noncomputable def trailingRun (P : ℕ → Prop) : ℕ → ℕ
  | 0 => 0
  | n + 1 => if P n then trailingRun P n + 1 else 0

/-- The magnitude stream of the counterexample trace: sixty samples at
0.06 g (learning a baseline with mean 0.06 and degenerate σ), then
samples at 0.065 g. -/
noncomputable def cexMags : ℕ → ℝ := fun n => if n < 60 then 0.06 else 0.065

end FaultDetector

namespace FaultDetector

/-! ## Lemmas about the resampler -/

lemma linspace01_length (S : ℕ) : (linspace01 S).length = S := by
  simp only [linspace01, List.length_map, List.length_range]

lemma apply_odt_eq_some (fsT f0T fsO f0D : ℚ) (values : List ℚ)
    (h2 : 2 ≤ values.length) (hS : 0 ≤ odtS fsT f0T values.length fsO f0D) :
    apply_odt fsT f0T values fsO f0D =
      some ((linspace01 (odtS fsT f0T values.length fsO f0D).toNat).map
        (interpAt values)) := by
  rw [apply_odt]
  rw [if_neg (by omega), if_neg (by omega)]

lemma apply_odt_length (fsT f0T fsO f0D : ℚ) (values : List ℚ)
    (h2 : 2 ≤ values.length) (hS : 0 ≤ odtS fsT f0T values.length fsO f0D) :
    (apply_odt fsT f0T values fsO f0D).map List.length =
      some (odtS fsT f0T values.length fsO f0D).toNat := by
  rw [apply_odt_eq_some fsT f0T fsO f0D values h2 hS]
  simp [linspace01_length]

lemma rampQ_length (N : ℕ) : (rampQ N).length = N := by
  simp only [rampQ, List.length_map, List.length_range]

lemma rampQ_getD (N k : ℕ) (hk : k < N) : (rampQ N).getD k 0 = (k : ℚ) := by
  rw [List.getD_eq_getElem?_getD, rampQ]
  rw [List.getElem?_map, List.getElem?_range hk]
  rfl

/-- On the ramp, linear interpolation is exact: the value at `t`
is `t * (N - 1)` whatever segment the query falls in. -/
lemma interpAt_rampQ (N : ℕ) (hN : 2 ≤ N) (t : ℚ) :
    interpAt (rampQ N) t = t * ((N : ℚ) - 1) := by
  simp only [interpAt, rampQ_length]
  set j := min (⌊t * ((N : ℚ) - 1)⌋.toNat) (N - 2) with hjdef
  have hjle : j ≤ N - 2 := min_le_right _ _
  rw [rampQ_getD N j (by omega), rampQ_getD N (j + 1) (by omega)]
  push_cast
  ring

lemma odtS_ramp100_1000_50 : odtS 3600 60 100 1000 50 = 300 := by
  norm_num [odtS, pyint]

lemma odtS_ramp100_1600_50 : odtS 3600 60 100 1600 50 = 187 := by
  norm_num [odtS, pyint]

/-- The resampler's output on the ramp is the map `i ↦ (i/299) * 99`
over 300 grid points. -/
lemma apply_odt_ramp100 :
    apply_odt 3600 60 (rampQ 100) 1000 50 =
      some ((List.range 300).map (fun i : ℕ => (i : ℚ) / 299 * 99)) := by
  have hlen : (rampQ 100).length = 100 := rampQ_length 100
  rw [apply_odt_eq_some 3600 60 1000 50 (rampQ 100) (by omega)
    (by rw [hlen, odtS_ramp100_1000_50]; norm_num)]
  rw [hlen, odtS_ramp100_1000_50, show ((300 : ℤ)).toNat = 300 from rfl]
  congr 1
  rw [linspace01, List.map_map]
  refine List.map_congr_left (fun i _ => ?_)
  simp only [Function.comp_apply]
  rw [interpAt_rampQ 100 (by norm_num)]
  norm_num

end FaultDetector

open FaultDetector

/-- C2 (counterexample): with N = 100, fs_original = 1600, f0_detected = 50
(and fs_target = 3600, f0_target = 60) the exact target count is 187.5;
the code truncates it to 187 and emits 187 samples, while the claimed
`S = round(fs_target * T / f0_target)` is 188. -/
theorem odt_truncates_not_rounds :
    (apply_odt 3600 60 (rampQ 100) 1600 50).map List.length = some 187 ∧
    round ((3600 : ℚ) * ((100 * 50) / 1600) / 60) = 188 := by
  constructor
  · rw [apply_odt_length 3600 60 1600 50 (rampQ 100)
      (by rw [rampQ_length]; omega)
      (by rw [rampQ_length, odtS_ramp100_1600_50]; norm_num)]
    rw [rampQ_length, odtS_ramp100_1600_50]
    rfl
  · norm_num [round_eq]

/-- C2 (amended): `apply_odt` computes `T = N * f0_detected / fs_original`
and the target count `S = int(fs_target * T / f0_target)`, truncated toward
zero rather than rounded; whenever the input has at least two samples and
`S` is nonnegative, the output has exactly `S` samples.  In particular for
N = 100, fs_original = 1000, f0_detected = 50 with fs_target = 3600 and
f0_target = 60 the output length is 300. -/
theorem apply_odt_output_length :
    (∀ (fsT f0T fsO f0D : ℚ) (values : List ℚ),
      2 ≤ values.length → 0 ≤ odtS fsT f0T values.length fsO f0D →
      (apply_odt fsT f0T values fsO f0D).map List.length =
        some (odtS fsT f0T values.length fsO f0D).toNat) ∧
    (apply_odt 3600 60 (rampQ 100) 1000 50).map List.length = some 300 := by
  refine ⟨fun fsT f0T fsO f0D values h2 hS =>
    apply_odt_length fsT f0T fsO f0D values h2 hS, ?_⟩
  rw [apply_odt_ramp100]
  simp only [Option.map_some', List.length_map, List.length_range]

/-- Witness for C2's theorem: the general part applied at the truncating
input N = 100, fs_original = 1600, f0_detected = 50. -/
theorem apply_odt_output_length_witness :
    (apply_odt 3600 60 (rampQ 100) 1600 50).map List.length =
      some (odtS 3600 60 (rampQ 100).length 1600 50).toNat :=
  apply_odt_output_length.1 3600 60 1600 50 (rampQ 100)
    (by rw [rampQ_length]; omega)
    (by rw [rampQ_length, odtS_ramp100_1600_50]; norm_num)

/-- C7 (confirmed): resampling the ramp `[0, 1, ..., 99]` with
N = 100, fs_original = 1000, f0_detected = 50, fs_target = 3600,
f0_target = 60 yields 300 samples whose first element is exactly 0 and
last element is exactly 99, and the output is monotonically
non-decreasing. -/
theorem odt_ramp_endpoints_monotone :
    (apply_odt 3600 60 (rampQ 100) 1000 50).map List.length = some 300 ∧
    (apply_odt 3600 60 (rampQ 100) 1000 50).bind (fun l => l[0]?) = some 0 ∧
    (apply_odt 3600 60 (rampQ 100) 1000 50).bind List.getLast? = some 99 ∧
    ((apply_odt 3600 60 (rampQ 100) 1000 50).getD []).Chain' (· ≤ ·) := by
  rw [apply_odt_ramp100]
  refine ⟨by simp, ?_, ?_, ?_⟩
  · simp only [Option.some_bind]
    rw [List.getElem?_map, List.getElem?_range (by norm_num : 0 < 300)]
    norm_num
  · simp only [Option.some_bind]
    rw [show (300 : ℕ) = 299 + 1 from rfl, List.range_succ, List.map_append,
      List.map_singleton, List.getLast?_concat]
    norm_num
  · simp only [Option.getD_some]
    refine List.Pairwise.chain' ?_
    rw [List.pairwise_map]
    refine (List.pairwise_lt_range 300).imp (fun {i j} hij => ?_)
    have hc : (i : ℚ) ≤ (j : ℚ) := by exact_mod_cast hij.le
    gcongr

namespace FaultDetector

/-! ## Lemmas about the filter recursion -/

lemma lfilterGo_length (b aT : List ℚ) (a0 : ℚ) (xs : List ℚ) :
    ∀ (xh yh : List ℚ), (lfilterGo b aT a0 xs xh yh).length = xs.length := by
  induction xs with
  | nil => intro xh yh; rfl
  | cons x xs ih =>
    intro xh yh
    simp only [lfilterGo, List.length_cons, ih]

/-- Splitting the input stream: the recursion on `s1 ++ s2` is the
recursion on `s1` followed by the recursion on `s2` continued from the
histories accumulated over `s1`. -/
lemma lfilterGo_append (b aT : List ℚ) (a0 : ℚ) (s1 : List ℚ) :
    ∀ (s2 xh yh : List ℚ),
      lfilterGo b aT a0 (s1 ++ s2) xh yh =
        lfilterGo b aT a0 s1 xh yh ++
          lfilterGo b aT a0 s2 (s1.reverse ++ xh)
            ((lfilterGo b aT a0 s1 xh yh).reverse ++ yh) := by
  induction s1 with
  | nil => intro s2 xh yh; simp [lfilterGo]
  | cons x xs ih =>
    intro s2 xh yh
    simp only [List.cons_append, lfilterGo, List.append_eq]
    rw [ih]
    simp [List.reverse_cons, List.append_assoc]

lemma lfilter_nil (b a : List ℚ) : lfilter b a [] = [] := by
  cases a <;> rfl

lemma lfilter_length (b : List ℚ) (a0 : ℚ) (aT x : List ℚ) :
    (lfilter b (a0 :: aT) x).length = x.length :=
  lfilterGo_length b aT a0 x [] []

/-- Causality of a zero-state `lfilter` batch call: the first `|s1|`
output samples depend only on the first `|s1|` input samples. -/
lemma lfilter_prefix (b a s1 s2 : List ℚ) :
    (lfilter b a (s1 ++ s2)).take s1.length = lfilter b a s1 := by
  cases a with
  | nil => simp [lfilter]
  | cons a0 aT =>
    rw [lfilter, lfilter, lfilterGo_append]
    have h := lfilterGo_length b aT a0 s1 [] []
    rw [← h, List.take_left]

/-! ## Lemmas about the drain loop -/

/-- Closed form of `_poll_incoming`'s drain loop, for a starting counter
`n ≤ 500`: with at most `500 - n` further items everything is processed in
order; with more, the first `501 - n` are processed and then only the very
last queued item (which is processed even if it was the item that tripped
the cap). -/
lemma drainLoop_eq {α : Type} (queue : List α) :
    ∀ (n : ℕ), n ≤ 500 → ∀ (acc : List α),
      drainLoop queue n acc =
        acc.reverse ++
          (if queue.length ≤ 500 - n then queue
           else queue.take (501 - n) ++ queue.getLast?.toList) := by
  induction queue with
  | nil =>
    intro n hn acc
    simp [drainLoop]
  | cons item rest ih =>
    intro n hn acc
    by_cases htrig : n = 500
    · subst htrig
      rw [drainLoop]
      rw [if_pos (by omega)]
      rw [if_neg (by simp only [List.length_cons]; omega)]
      have hlast : (item :: rest).getLast? = some (rest.getLast?.getD item) := by
        cases rest with
        | nil => rfl
        | cons b t =>
          rw [List.getLast?_cons_cons]
          cases h : (b :: t).getLast? with
          | none => simp [List.getLast?] at h
          | some x => simp [h]
      rw [hlast]
      simp [show 501 - 500 = 1 from rfl, List.take_succ_cons, List.take_zero]
    · have hn' : n + 1 ≤ 500 := by omega
      rw [drainLoop]
      rw [if_neg (by omega)]
      rw [ih (n + 1) hn' (item :: acc)]
      simp only [List.reverse_cons, List.append_assoc, List.singleton_append]
      congr 1
      by_cases hshort : rest.length ≤ 500 - (n + 1)
      · rw [if_pos hshort, if_pos (by simp only [List.length_cons]; omega)]
      · rw [if_neg hshort, if_neg (by simp only [List.length_cons]; omega)]
        have hrest : rest ≠ [] := by
          intro h
          rw [h] at hshort
          simp at hshort
        have h501 : 501 - n = (501 - (n + 1)) + 1 := by omega
        rw [h501, List.take_succ_cons]
        have hlast2 : (item :: rest).getLast? = rest.getLast? := by
          cases rest with
          | nil => exact absurd rfl hrest
          | cons b t => exact List.getLast?_cons_cons
        rw [hlast2]
        simp

/-- Closed form of the samples processed per drain cycle. -/
lemma pollProcessed_eq {α : Type} (queue : List α) :
    pollProcessed queue =
      if queue.length ≤ 500 then queue
      else queue.take 501 ++ queue.getLast?.toList := by
  rw [pollProcessed, drainLoop_eq queue 0 (by omega) []]
  simp

end FaultDetector

/-- C3 (counterexample): a two-chunk run through a filter cascade with a
recursive stage does not equal the one-shot run on the concatenation,
because `apply_filters` restarts `lfilter` from zero state on every call.
With first-stage coefficients `b = [1]`, `a = [1, 1/2]` and an identity
second stage, the signal `[1, 0]` filters to `[1, -1/2]` in one call, but
chunked calls on `[1]` then `[0]` yield `[1]` and `[0]`. -/
theorem apply_filters_chunked_differs :
    apply_filters [1] [1, 1/2] [1] [1] ([1] ++ [0]) = [1, -(1/2)] ∧
    apply_filters [1] [1, 1/2] [1] [1] [1] ++
      apply_filters [1] [1, 1/2] [1] [1] [0] = [1, 0] ∧
    ([1, -(1/2)] : List ℚ) ≠ [1, 0] := by
  refine ⟨?_, ?_, by norm_num⟩
  · norm_num [apply_filters, lfilter, lfilterGo, dotRev]
  · norm_num [apply_filters, lfilter, lfilterGo, dotRev]

/-- C3 (amended): `apply_filters` is a stateless batch operation — each
call runs both `lfilter` stages from zero initial state, so chunked
processing agrees with processing the concatenated signal only on the
first chunk (by causality); the samples after the first chunk differ in
general.  For all coefficient vectors and chunks, the first `|s1|`
samples of the one-shot output equal the output of the first chunked
call. -/
theorem apply_filters_stateless_prefix (eb ea nb na s1 s2 : List ℚ) :
    (apply_filters eb ea nb na (s1 ++ s2)).take s1.length =
      apply_filters eb ea nb na s1 := by
  unfold apply_filters
  cases ea with
  | nil =>
    rw [show lfilter eb [] (s1 ++ s2) = [] from rfl,
      show lfilter eb [] s1 = [] from rfl, lfilter_nil, List.take_nil]
  | cons a0 aT =>
    have hsplit : lfilter eb (a0 :: aT) (s1 ++ s2) =
        lfilter eb (a0 :: aT) s1 ++
          lfilterGo eb aT a0 s2 (s1.reverse ++ [])
            ((lfilterGo eb aT a0 s1 [] []).reverse ++ []) := by
      rw [lfilter, lfilter]
      exact lfilterGo_append eb aT a0 s1 s2 [] []
    rw [hsplit, ← lfilter_length eb a0 aT s1]
    exact lfilter_prefix nb na _ _

/-- C8 (counterexample): with 1000 samples pending (beyond the 500 cap),
the drain cycle does not process only the most recent sample: it
processes the first 501 samples and then the most recent one. -/
theorem poll_not_only_latest :
    500 < (List.range 1000).length ∧
    pollProcessed (List.range 1000) = List.range 501 ++ [999] ∧
    List.range 501 ++ [999] ≠ [999] := by
  refine ⟨by simp, ?_, ?_⟩
  · rw [pollProcessed_eq, if_neg (by simp), List.take_range,
      show (List.range 1000).getLast? = some 999 from by
        rw [show (1000 : ℕ) = 999 + 1 from rfl, List.range_succ,
          List.getLast?_concat]]
    norm_num
  · intro h
    have hl := congrArg List.length h
    simp at hl

/-- C8 (amended): when at most 500 samples are pending, `_poll_incoming`
processes all of them in arrival order; when more are pending it
processes the first 501 and then only the most recent remaining sample
(so the 501st is processed twice when exactly 501 are pending).  A drain
cycle therefore processes at most 502 samples however many were enqueued,
and the last sample it processes is always the freshest. -/
theorem poll_bounded_and_fresh :
    (∀ (queue : List ℚ), queue.length ≤ 500 → pollProcessed queue = queue) ∧
    (∀ (queue : List ℚ), 500 < queue.length →
      pollProcessed queue = queue.take 501 ++ queue.getLast?.toList) ∧
    (∀ (queue : List ℚ), (pollProcessed queue).length ≤ 502) ∧
    (∀ (queue : List ℚ), queue ≠ [] →
      (pollProcessed queue).getLast? = queue.getLast?) := by
  refine ⟨fun queue h => by rw [pollProcessed_eq, if_pos h],
    fun queue h => by rw [pollProcessed_eq, if_neg (by omega)], ?_, ?_⟩
  · intro queue
    rw [pollProcessed_eq]
    by_cases h : queue.length ≤ 500
    · rw [if_pos h]; omega
    · rw [if_neg h, List.length_append, List.length_take]
      cases hq : queue.getLast? <;>
        simp only [Option.toList, List.length_cons, List.length_nil] <;> omega
  · intro queue hne
    rw [pollProcessed_eq]
    by_cases h : queue.length ≤ 500
    · rw [if_pos h]
    · rw [if_neg h]
      have hsome : queue.getLast?.isSome := List.getLast?_isSome.mpr hne
      obtain ⟨x, hx⟩ := Option.isSome_iff_exists.mp hsome
      rw [hx]
      rw [show (some x).toList = [x] from rfl, List.getLast?_concat]

/-- Witness for C8's theorem: its four parts applied at the concrete
queues `[0..2]` (below the cap) and `[0..500]` (above the cap). -/
theorem poll_bounded_and_fresh_witness :
    pollProcessed (rampQ 3) = rampQ 3 ∧
    pollProcessed (rampQ 501) =
      (rampQ 501).take 501 ++ (rampQ 501).getLast?.toList ∧
    (pollProcessed (rampQ 501)).length ≤ 502 ∧
    (pollProcessed (rampQ 501)).getLast? = (rampQ 501).getLast? :=
  ⟨poll_bounded_and_fresh.1 (rampQ 3) (by rw [rampQ_length]; omega),
   poll_bounded_and_fresh.2.1 (rampQ 501) (by rw [rampQ_length]; omega),
   poll_bounded_and_fresh.2.2.1 (rampQ 501),
   poll_bounded_and_fresh.2.2.2 (rampQ 501) (by
     intro h
     have hl := congrArg List.length h
     rw [rampQ_length] at hl
     simp at hl)⟩

namespace FaultDetector

/-! ## Lemmas about the fallback path -/

lemma pyint_nonpos (q : ℚ) (h : q ≤ 0) : pyint q ≤ 0 := by
  rw [pyint]
  split
  · exact Int.floor_nonpos h
  · exact Int.ceil_le.mpr (by exact_mod_cast h)

/-- With the positive configuration constants and a non-positive detected
fundamental, the computed target count is non-positive. -/
lemma odtS_nonpos_of_f0_nonpos (fsT f0T : ℚ) (N : ℕ) (fsO f0D : ℚ)
    (hfsT : 0 < fsT) (hf0T : 0 < f0T) (hfsO : 0 < fsO) (hf0D : f0D ≤ 0) :
    odtS fsT f0T N fsO f0D ≤ 0 := by
  refine pyint_nonpos _ ?_
  have h1 : (N : ℚ) * f0D ≤ 0 :=
    mul_nonpos_iff.mpr (Or.inl ⟨Nat.cast_nonneg N, hf0D⟩)
  have h2 : (N : ℚ) * f0D / fsO ≤ 0 :=
    div_nonpos_iff.mpr (Or.inr ⟨h1, hfsO.le⟩)
  have h3 : fsT * ((N : ℚ) * f0D / fsO) ≤ 0 :=
    mul_nonpos_iff.mpr (Or.inl ⟨hfsT.le, h2⟩)
  exact div_nonpos_iff.mpr (Or.inr ⟨h3, hf0T.le⟩)

lemma apply_filters_length (eb nb : List ℚ) (ea0 na0 : ℚ) (eaT naT x : List ℚ) :
    (apply_filters eb (ea0 :: eaT) nb (na0 :: naT) x).length = x.length := by
  rw [apply_filters, lfilter_length, lfilter_length]

/-- The resampler raises an exception exactly when the window is too
short to interpolate or the computed target count is negative. -/
lemma apply_odt_none_iff (fsT f0T fsO f0D : ℚ) (values : List ℚ) :
    apply_odt fsT f0T values fsO f0D = none ↔
      values.length < 2 ∨ odtS fsT f0T values.length fsO f0D < 0 := by
  simp only [apply_odt]
  by_cases h2 : values.length < 2
  · rw [if_pos h2]
    simp [h2]
  · rw [if_neg h2]
    by_cases hS : odtS fsT f0T values.length fsO f0D < 0
    · rw [if_pos hS]
      simp [h2, hS]
    · rw [if_neg hS]
      simp [h2, hS]

/-- The caller's pipeline attempt yields no value exactly when the window
is too short or the target count is non-positive (a negative count raises
inside the resampler, a zero count yields an empty array whose final
element cannot be read). -/
lemma pipelineAttempt_none_iff (fsT f0T fsO f0D : ℚ) (eb nb : List ℚ)
    (ea0 na0 : ℚ) (eaT naT : List ℚ) (values : List ℚ) :
    pipelineAttempt fsT f0T eb (ea0 :: eaT) nb (na0 :: naT) values fsO f0D
        = none ↔
      values.length < 2 ∨ odtS fsT f0T values.length fsO f0D ≤ 0 := by
  rw [pipelineAttempt]
  by_cases h2 : values.length < 2
  · rw [(apply_odt_none_iff fsT f0T fsO f0D values).mpr (Or.inl h2)]
    simp [h2]
  · by_cases hS : odtS fsT f0T values.length fsO f0D < 0
    · rw [(apply_odt_none_iff fsT f0T fsO f0D values).mpr (Or.inr hS)]
      simp [h2, hS.le]
    · push_neg at h2 hS
      rw [apply_odt_eq_some fsT f0T fsO f0D values h2 hS]
      simp only [Option.map_some', Option.some_bind]
      rw [List.getLast?_eq_none_iff, ← List.length_eq_zero]
      rw [apply_filters_length, List.length_map, linspace01_length]
      omega

end FaultDetector

/-- C4 (counterexample): with N = 2, fs_original = 120, f0_detected = 1
the computed target count is S = 1 < 2, a case the claim calls degenerate
and says must fail over to the EMA; but the code's resampler succeeds with
the single-sample output `[0]`, the filtered last sample is read without
error, and the cycle emits the pipeline value 0 — not the EMA fallback
(which here would be 0.3·7 + 0.7·42 = 63/2). -/
theorem odt_s1_succeeds_no_fallback :
    odtS 3600 60 2 120 1 = 1 ∧
    apply_odt 3600 60 [0, 1] 120 1 = some [0] ∧
    pipelineAttempt 3600 60 [1] [1] [1] [1] [0, 1] 120 1 = some 0 ∧
    callbackEmit (pipelineAttempt 3600 60 [1] [1] [1] [1] [0, 1] 120 1)
      (3/10) 7 (some 42) = 0 ∧
    emaFallback (3/10) 7 (some 42) = 63 / 2 := by
  have hS : odtS 3600 60 2 120 1 = 1 := by norm_num [odtS, pyint]
  have hodt : apply_odt 3600 60 [0, 1] 120 1 = some [0] := by
    have h := apply_odt_eq_some 3600 60 120 1 [0, 1] (by norm_num) (by
      rw [show ([(0 : ℚ), 1]).length = 2 from rfl, hS]; norm_num)
    rw [show ([(0 : ℚ), 1]).length = 2 from rfl, hS] at h
    rw [h]
    norm_num [linspace01, List.range_succ, interpAt]
  have hatt : pipelineAttempt 3600 60 [1] [1] [1] [1] [0, 1] 120 1 = some 0 := by
    rw [pipelineAttempt, hodt]
    simp only [Option.map_some', Option.some_bind]
    norm_num [apply_filters, lfilter, lfilterGo, dotRev]
  exact ⟨hS, hodt, hatt, by rw [hatt]; rfl, by norm_num [emaFallback]⟩

/-- C4 (amended): the resampler raises no `DegenerateWindow` condition.
It raises an exception exactly when the window has fewer than 2 samples or
the computed target count `S` is negative; the caller's pipeline attempt
produces no value exactly when the window is short or `S ≤ 0` (an `S = 0`
resample is an empty array whose last element cannot be read), which in
particular happens for every non-positive `f0_detected` under positive
configuration constants; and whenever the attempt produces no value the
caller emits the EMA fallback for that cycle instead of halting.
(`S = 1`, although below 2, succeeds and bypasses the fallback.) -/
theorem odt_failure_modes_and_ema_recovery :
    (∀ (fsT f0T fsO f0D : ℚ) (values : List ℚ),
      apply_odt fsT f0T values fsO f0D = none ↔
        values.length < 2 ∨ odtS fsT f0T values.length fsO f0D < 0) ∧
    (∀ (fsT f0T fsO f0D : ℚ) (eb nb : List ℚ) (ea0 na0 : ℚ)
        (eaT naT : List ℚ) (values : List ℚ),
      pipelineAttempt fsT f0T eb (ea0 :: eaT) nb (na0 :: naT) values fsO f0D
          = none ↔
        values.length < 2 ∨ odtS fsT f0T values.length fsO f0D ≤ 0) ∧
    (∀ (fsT f0T fsO f0D : ℚ) (eb nb : List ℚ) (ea0 na0 : ℚ)
        (eaT naT : List ℚ) (values : List ℚ),
      0 < fsT → 0 < f0T → 0 < fsO → f0D ≤ 0 → 2 ≤ values.length →
      pipelineAttempt fsT f0T eb (ea0 :: eaT) nb (na0 :: naT) values fsO f0D
          = none) ∧
    (∀ (attempt : Option ℚ) (alpha raw : ℚ) (prev : Option ℚ),
      attempt = none →
      callbackEmit attempt alpha raw prev = emaFallback alpha raw prev) := by
  refine ⟨apply_odt_none_iff, pipelineAttempt_none_iff, ?_, ?_⟩
  · intro fsT f0T fsO f0D eb nb ea0 na0 eaT naT values hfsT hf0T hfsO hf0D h2
    exact (pipelineAttempt_none_iff fsT f0T fsO f0D eb nb ea0 na0 eaT naT
      values).mpr
      (Or.inr (odtS_nonpos_of_f0_nonpos fsT f0T values.length fsO f0D
        hfsT hf0T hfsO hf0D))
  · intro attempt alpha raw prev h
    rw [h]
    rfl

/-- Witness for C4's theorem: a zero detected fundamental with a
100-sample window makes the attempt fail, and the cycle then emits the
EMA value. -/
theorem odt_failure_modes_and_ema_recovery_witness :
    pipelineAttempt 3600 60 [1] [1] [1] [1] (rampQ 100) 1000 0 = none ∧
    callbackEmit (pipelineAttempt 3600 60 [1] [1] [1] [1] (rampQ 100) 1000 0)
      (3/10) 7 (some 42) = emaFallback (3/10) 7 (some 42) := by
  have h := odt_failure_modes_and_ema_recovery.2.2.1 3600 60 1000 0 [1] [1]
    1 1 [] [] (rampQ 100) (by norm_num) (by norm_num) (by norm_num)
    (le_refl 0) (by rw [rampQ_length]; omega)
  exact ⟨h, odt_failure_modes_and_ema_recovery.2.2.2 _ (3/10) 7 (some 42) h⟩

namespace FaultDetector

/-! ## Lemmas about the Park transform, scaling and scoring -/

lemma sum_map_mul (l : List ℝ) (c : ℝ) :
    (l.map (fun x => c * x)).sum = c * l.sum := by
  induction l with
  | nil => simp
  | cons a t ih => simp [ih, mul_add]

lemma sum_map_div (l : List ℝ) (c : ℝ) :
    (l.map (fun x => x / c)).sum = l.sum / c := by
  induction l with
  | nil => simp
  | cons a t ih => simp [ih, add_div]

lemma meanR_map_div (l : List ℝ) (c : ℝ) :
    meanR (l.map (fun x => x / c)) = meanR l / c := by
  rw [meanR, meanR, List.length_map, sum_map_div]
  ring

lemma meanR_map_mul (l : List ℝ) (c : ℝ) :
    meanR (l.map (fun x => c * x)) = c * meanR l := by
  rw [meanR, meanR, List.length_map, sum_map_mul]
  ring

lemma radii_nonneg (i_d i_q : List ℝ) : ∀ r ∈ radii i_d i_q, 0 ≤ r := by
  induction i_d generalizing i_q with
  | nil => simp [radii]
  | cons d ds ih =>
    cases i_q with
    | nil => simp [radii]
    | cons q qs =>
      intro r hr
      rw [radii, List.zipWith_cons_cons, List.mem_cons] at hr
      rcases hr with rfl | hr
      · exact Real.sqrt_nonneg _
      · exact ih qs r hr

lemma meanR_nonneg (l : List ℝ) (h : ∀ x ∈ l, 0 ≤ x) : 0 ≤ meanR l :=
  div_nonneg (List.sum_nonneg h) (Nat.cast_nonneg _)

lemma sum_zero_all_zero (l : List ℝ) (h : ∀ x ∈ l, 0 ≤ x) (hs : l.sum = 0) :
    ∀ x ∈ l, x = 0 := by
  induction l with
  | nil => simp
  | cons a t ih =>
    have ha : 0 ≤ a := h a (List.mem_cons_self a t)
    have ht : ∀ x ∈ t, 0 ≤ x := fun x hx => h x (List.mem_cons_of_mem a hx)
    have hts : 0 ≤ t.sum := List.sum_nonneg ht
    rw [List.sum_cons] at hs
    intro x hx
    rcases List.mem_cons.mp hx with rfl | hx'
    · linarith
    · exact ih ht (by linarith) x hx'

lemma all_zero_of_meanR_zero (l : List ℝ) (h : ∀ x ∈ l, 0 ≤ x)
    (hm : meanR l = 0) : ∀ x ∈ l, x = 0 := by
  cases l with
  | nil => simp
  | cons a t =>
    refine sum_zero_all_zero (a :: t) h ?_
    rw [meanR, div_eq_zero_iff] at hm
    rcases hm with h1 | h2
    · exact h1
    · have hpos : (0 : ℝ) < ((a :: t).length : ℝ) := by
        exact_mod_cast Nat.succ_pos t.length
      exact absurd h2 (ne_of_gt hpos)

/-- Dividing both components by a positive constant divides every radius
by that constant. -/
lemma radii_map_div (i_d i_q : List ℝ) (c : ℝ) (hc : 0 < c) :
    radii (i_d.map (· / c)) (i_q.map (· / c)) =
      (radii i_d i_q).map (fun r => r / c) := by
  rw [radii, radii, List.zipWith_map, List.map_zipWith]
  congr 1
  funext a b
  have hs : (a / c) ^ 2 + (b / c) ^ 2 = (a ^ 2 + b ^ 2) / c ^ 2 := by
    field_simp
  rw [hs, Real.sqrt_div (by positivity) _, Real.sqrt_sq hc.le]

/-- Multiplying both components by a nonnegative constant multiplies every
radius by that constant. -/
lemma radii_map_mul (i_d i_q : List ℝ) (c : ℝ) (hc : 0 ≤ c) :
    radii (i_d.map (fun x => c * x)) (i_q.map (fun x => c * x)) =
      (radii i_d i_q).map (fun r => c * r) := by
  rw [radii, radii, List.zipWith_map, List.map_zipWith]
  congr 1
  funext a b
  have hs : (c * a) ^ 2 + (c * b) ^ 2 = c ^ 2 * (a ^ 2 + b ^ 2) := by ring
  rw [hs, Real.sqrt_mul (by positivity) _, Real.sqrt_sq hc]

end FaultDetector

/-- C1 (confirmed): whenever the mean radius of a Park trajectory is
nonzero, `scale_trajectory` returns a trajectory whose mean radius is
exactly 1; when the mean radius is zero it returns its input unchanged. -/
theorem scale_trajectory_unit_mean_radius :
    (∀ (i_d i_q : List ℝ), meanR (radii i_d i_q) ≠ 0 →
      meanR (radii (scale_trajectory i_d i_q).1 (scale_trajectory i_d i_q).2)
        = 1) ∧
    (∀ (i_d i_q : List ℝ), meanR (radii i_d i_q) = 0 →
      scale_trajectory i_d i_q = (i_d, i_q)) := by
  constructor
  · intro i_d i_q h
    have hc : 0 < meanR (radii i_d i_q) :=
      lt_of_le_of_ne (meanR_nonneg _ (radii_nonneg i_d i_q)) (Ne.symm h)
    simp only [scale_trajectory]
    rw [if_neg h]
    dsimp only
    rw [radii_map_div i_d i_q _ hc, meanR_map_div, div_self h]
  · intro i_d i_q h
    simp only [scale_trajectory]
    rw [if_pos h]

/-- Witness for C1's theorem: the one-point trajectory `(1, 0)` has mean
radius 1 ≠ 0 and rescales to mean radius exactly 1; the all-zero
trajectory passes through unchanged. -/
theorem scale_trajectory_unit_mean_radius_witness :
    meanR (radii (scale_trajectory [1] [0]).1 (scale_trajectory [1] [0]).2)
      = 1 ∧
    scale_trajectory [0] [0] = ([0], [0]) := by
  have h1 : radii [(1 : ℝ)] [(0 : ℝ)] = [1] := by
    rw [radii]
    norm_num [List.zipWith]
  have h0 : radii [(0 : ℝ)] [(0 : ℝ)] = [0] := by
    rw [radii]
    norm_num [List.zipWith]
  exact ⟨scale_trajectory_unit_mean_radius.1 [1] [0]
    (by rw [h1]; norm_num [meanR]),
    scale_trajectory_unit_mean_radius.2 [0] [0]
    (by rw [h0]; norm_num [meanR])⟩

/-- C5 (confirmed): the Park transform computes
`id = sqrt(2/3)*ia − ib/sqrt(6) − ic/sqrt(6)` and
`iq = ib/sqrt(2) − ic/sqrt(2)` elementwise, and on the single sample
`ia = 1, ib = −1/2, ic = −1/2` it returns
`id = sqrt(2/3) + 1/sqrt(6) ≈ 1.2247` and `iq = 0`. -/
theorem park_vector_formula_and_sample :
    (∀ (ia ib ic : List ℝ),
      (compute_park_vector ia ib ic).1 =
        List.zipWith3 (fun a b c =>
          Real.sqrt (2/3) * a - b / Real.sqrt 6 - c / Real.sqrt 6) ia ib ic ∧
      (compute_park_vector ia ib ic).2 =
        List.zipWith (fun b c => b / Real.sqrt 2 - c / Real.sqrt 2) ib ic) ∧
    compute_park_vector [1] [-(1/2)] [-(1/2)] =
      ([Real.sqrt (2/3) + 1 / Real.sqrt 6], [0]) ∧
    |Real.sqrt (2/3) + 1 / Real.sqrt 6 - 1.2247| < 1 / 2000 := by
  have h6 : (0 : ℝ) < Real.sqrt 6 := Real.sqrt_pos.mpr (by norm_num)
  have hm : Real.sqrt 6 * Real.sqrt 6 = 6 := Real.mul_self_sqrt (by norm_num)
  have h23 : Real.sqrt (2/3 : ℝ) = Real.sqrt 6 / 3 := by
    rw [show (2/3 : ℝ) = 6 / 9 by norm_num, Real.sqrt_div (by norm_num) 9,
      show (9 : ℝ) = 3 ^ 2 by norm_num, Real.sqrt_sq (by norm_num)]
  have hkey : Real.sqrt (2/3) + 1 / Real.sqrt 6 = Real.sqrt 6 / 2 := by
    rw [h23]
    field_simp
    nlinarith [hm]
  refine ⟨fun ia ib ic => ⟨rfl, rfl⟩, ?_, ?_⟩
  · simp only [compute_park_vector, List.zipWith3, List.zipWith,
      Prod.mk.injEq, List.cons.injEq, and_true]
    constructor
    · ring
    · ring
  · have hlo : (2.449 : ℝ) < Real.sqrt 6 :=
      (Real.lt_sqrt (by norm_num)).mpr (by norm_num)
    have hhi : Real.sqrt 6 < 2.4495 :=
      (Real.sqrt_lt' (by norm_num)).mpr (by norm_num)
    rw [hkey, abs_sub_lt_iff]
    constructor <;> [linarith; linarith]

namespace FaultDetector

lemma radii_one_zero : radii [(1 : ℝ)] [(0 : ℝ)] = [1] := by
  rw [radii]
  norm_num [List.zipWith]

lemma radii_two_zero : radii [(2 : ℝ)] [(0 : ℝ)] = [2] := by
  rw [radii]
  norm_num [List.zipWith]
  rw [show (4 : ℝ) = 2 ^ 2 by norm_num, Real.sqrt_sq (by norm_num)]

end FaultDetector

/-- C6 (confirmed, classification modelled from the spec): the
current-signature score of a trajectory is `mean((PVM_i − 1)^2)` (and
`least_squares_v1` is exactly that score of the scaled Park trajectory); a
nonempty trajectory whose PVM is identically 1 scores 0 and classifies
Good, and one whose PVM is identically 2 scores 1 and classifies Fault,
for any threshold strictly between 0 and 1 (the spec's default is below
1.0). -/
theorem fault_score_mse_and_classification :
    (∀ (ia ib ic : List ℝ),
      least_squares_v1 ia ib ic =
        mseScore
          (scale_trajectory (compute_park_vector ia ib ic).1
            (compute_park_vector ia ib ic).2).1
          (scale_trajectory (compute_park_vector ia ib ic).1
            (compute_park_vector ia ib ic).2).2) ∧
    (∀ (i_d i_q : List ℝ) (θ : ℝ), 0 < θ →
      (∀ r ∈ radii i_d i_q, r = 1) →
      mseScore i_d i_q = 0 ∧ classify θ (mseScore i_d i_q) =
        HealthClass.Good) ∧
    (∀ (i_d i_q : List ℝ) (θ : ℝ), i_d ≠ [] → i_q ≠ [] → θ < 1 →
      (∀ r ∈ radii i_d i_q, r = 2) →
      mseScore i_d i_q = 1 ∧ classify θ (mseScore i_d i_q) =
        HealthClass.Fault) := by
  refine ⟨fun ia ib ic => rfl, ?_, ?_⟩
  · intro i_d i_q θ hθ hall
    have hz : mseScore i_d i_q = 0 := by
      rw [mseScore]
      have : ((radii i_d i_q).map (fun r => (r - 1) ^ 2)).sum = 0 := by
        refine List.sum_eq_zero (fun x hx => ?_)
        obtain ⟨r, hr, rfl⟩ := List.mem_map.mp hx
        rw [hall r hr]
        norm_num
      rw [meanR, this, zero_div]
    refine ⟨hz, ?_⟩
    rw [hz, classify, if_neg (by linarith)]
  · intro i_d i_q θ hd hq hθ hall
    have hlen : (radii i_d i_q).length ≠ 0 := by
      rw [radii, List.length_zipWith]
      have h1 : 0 < i_d.length := List.length_pos.mpr hd
      have h2 : 0 < i_q.length := List.length_pos.mpr hq
      omega
    have hone : mseScore i_d i_q = 1 := by
      rw [mseScore]
      have hsum : ((radii i_d i_q).map (fun r => (r - 1) ^ 2)).sum =
          ((radii i_d i_q).map (fun r => (r - 1) ^ 2)).length • (1 : ℝ) := by
        refine List.sum_eq_card_nsmul _ _ (fun x hx => ?_)
        obtain ⟨r, hr, rfl⟩ := List.mem_map.mp hx
        rw [hall r hr]
        norm_num
      rw [meanR, hsum, List.length_map]
      rw [nsmul_eq_mul, mul_one, div_self]
      exact_mod_cast hlen
    refine ⟨hone, ?_⟩
    rw [hone, classify, if_pos hθ]

/-- Witness for C6's theorem: the one-point trajectory `(1, 0)` has PVM
identically 1, scores 0 and classifies Good; `(2, 0)` has PVM identically
2, scores 1 and classifies Fault (threshold 1/2). -/
theorem fault_score_mse_and_classification_witness :
    (mseScore [1] [0] = 0 ∧
      classify (1/2) (mseScore [1] [0]) = HealthClass.Good) ∧
    (mseScore [2] [0] = 1 ∧
      classify (1/2) (mseScore [2] [0]) = HealthClass.Fault) :=
  ⟨fault_score_mse_and_classification.2.1 [1] [0] (1/2) (by norm_num)
    (by rw [radii_one_zero]; simp),
   fault_score_mse_and_classification.2.2 [2] [0] (1/2)
    (by simp) (by simp) (by norm_num)
    (by rw [radii_two_zero]; simp)⟩

namespace FaultDetector

lemma zipWith3_map_arg (f : ℝ → ℝ → ℝ → ℝ) (g : ℝ → ℝ) (l1 : List ℝ) :
    ∀ (l2 l3 : List ℝ),
      List.zipWith3 f (l1.map g) (l2.map g) (l3.map g) =
        List.zipWith3 (fun a b c => f (g a) (g b) (g c)) l1 l2 l3 := by
  induction l1 with
  | nil => intro l2 l3; simp [List.zipWith3]
  | cons a t ih =>
    intro l2 l3
    cases l2 <;> cases l3 <;> simp [List.zipWith3, ih]

lemma map_zipWith3 (g : ℝ → ℝ) (f : ℝ → ℝ → ℝ → ℝ) (l1 : List ℝ) :
    ∀ (l2 l3 : List ℝ),
      (List.zipWith3 f l1 l2 l3).map g =
        List.zipWith3 (fun a b c => g (f a b c)) l1 l2 l3 := by
  induction l1 with
  | nil => intro l2 l3; simp [List.zipWith3]
  | cons a t ih =>
    intro l2 l3
    cases l2 <;> cases l3 <;> simp [List.zipWith3, ih]

/-- The Park transform is homogeneous: scaling the three phase currents by
`c` scales both output components by `c`. -/
lemma park_map_mul (c : ℝ) (ia ib ic : List ℝ) :
    compute_park_vector (ia.map (fun x => c * x)) (ib.map (fun x => c * x))
        (ic.map (fun x => c * x)) =
      ((compute_park_vector ia ib ic).1.map (fun x => c * x),
       (compute_park_vector ia ib ic).2.map (fun x => c * x)) := by
  rw [compute_park_vector, compute_park_vector]
  dsimp only
  congr 1
  · rw [zipWith3_map_arg, map_zipWith3]
    congr 1
    funext a b d
    ring
  · rw [List.zipWith_map, List.map_zipWith]
    congr 1
    funext b d
    ring

/-- Scaling a trajectory by a positive constant does not change the score
of its scaled version: the normalization divides the constant back out
(and a zero-mean-radius trajectory has all radii zero, where the constant
is absorbed by the zeros). -/
lemma mseScore_scale_trajectory_map_mul (c : ℝ) (hc : 0 < c)
    (i_d i_q : List ℝ) :
    mseScore
        (scale_trajectory (i_d.map (fun x => c * x))
          (i_q.map (fun x => c * x))).1
        (scale_trajectory (i_d.map (fun x => c * x))
          (i_q.map (fun x => c * x))).2 =
      mseScore (scale_trajectory i_d i_q).1 (scale_trajectory i_d i_q).2 := by
  have hradm := radii_map_mul i_d i_q c hc.le
  have hm' : meanR (radii (i_d.map (fun x => c * x))
      (i_q.map (fun x => c * x))) = c * meanR (radii i_d i_q) := by
    rw [hradm, meanR_map_mul]
  by_cases h0 : meanR (radii i_d i_q) = 0
  · have hz : ∀ r ∈ radii i_d i_q, r = 0 :=
      all_zero_of_meanR_zero _ (radii_nonneg i_d i_q) h0
    have h0' : meanR (radii (i_d.map (fun x => c * x))
        (i_q.map (fun x => c * x))) = 0 := by
      rw [hm', h0, mul_zero]
    simp only [scale_trajectory]
    rw [if_pos h0, if_pos h0']
    dsimp only
    rw [mseScore, mseScore, hradm, List.map_map]
    congr 1
    refine List.map_congr_left (fun r hr => ?_)
    simp only [Function.comp_apply]
    rw [hz r hr, mul_zero]
  · have hpos : 0 < meanR (radii i_d i_q) :=
      lt_of_le_of_ne (meanR_nonneg _ (radii_nonneg i_d i_q)) (Ne.symm h0)
    have h0' : meanR (radii (i_d.map (fun x => c * x))
        (i_q.map (fun x => c * x))) ≠ 0 := by
      rw [hm']
      exact mul_ne_zero hc.ne' h0
    simp only [scale_trajectory]
    rw [if_neg h0, if_neg h0']
    dsimp only
    rw [hm']
    have ed : (i_d.map (fun x => c * x)).map
        (· / (c * meanR (radii i_d i_q))) =
        i_d.map (· / meanR (radii i_d i_q)) := by
      rw [List.map_map]
      refine List.map_congr_left (fun x _ => ?_)
      simp only [Function.comp_apply]
      exact mul_div_mul_left x (meanR (radii i_d i_q)) hc.ne'
    have eq2 : (i_q.map (fun x => c * x)).map
        (· / (c * meanR (radii i_d i_q))) =
        i_q.map (· / meanR (radii i_d i_q)) := by
      rw [List.map_map]
      refine List.map_congr_left (fun x _ => ?_)
      simp only [Function.comp_apply]
      exact mul_div_mul_left x (meanR (radii i_d i_q)) hc.ne'
    rw [ed, eq2]

end FaultDetector

/-- C10 (confirmed): the fault score is invariant under uniform positive
scaling of the three phase currents: the Park transform is homogeneous and
`scale_trajectory` divides by the trajectory's own mean radius, so the
constant cancels (a degenerate all-zero trajectory is fixed by scaling). -/
theorem least_squares_scale_invariance (c : ℝ) (hc : 0 < c)
    (ia ib ic : List ℝ) :
    least_squares_v1 (ia.map (fun x => c * x)) (ib.map (fun x => c * x))
        (ic.map (fun x => c * x)) =
      least_squares_v1 ia ib ic := by
  simp only [least_squares_v1]
  rw [park_map_mul c ia ib ic]
  exact mseScore_scale_trajectory_map_mul c hc _ _

/-- Witness for C10's theorem: doubling the currents of the sample
`ia = [1], ib = [0], ic = [0]` leaves the score unchanged. -/
theorem least_squares_scale_invariance_witness :
    least_squares_v1 ([1].map (fun x => 2 * x)) ([0].map (fun x => 2 * x))
        ([0].map (fun x => 2 * x)) =
      least_squares_v1 [1] [0] [0] :=
  least_squares_scale_invariance 2 (by norm_num) [1] [0] [0]

namespace FaultDetector

/-! ## Lemmas about the vibration monitor -/

lemma dequePush_length (cap : ℕ) (l : List ℝ) (x : ℝ) :
    (dequePush cap l x).length = min (l.length + 1) cap := by
  rw [dequePush]
  split <;> rename_i h <;>
    simp only [List.length_drop, List.length_append, List.length_cons,
      List.length_nil] at h ⊢ <;> omega

lemma dequePush_eq_append (cap : ℕ) (l : List ℝ) (x : ℝ)
    (h : l.length + 1 ≤ cap) : dequePush cap l x = l ++ [x] := by
  rw [dequePush]
  rw [if_neg (by simp only [List.length_append, List.length_cons,
    List.length_nil]; omega)]

lemma lastN_full (l : List ℝ) (k : ℕ) (h : l.length = k) : lastN l k = l := by
  rw [lastN, h, Nat.sub_self, List.drop_zero]

lemma meanR_replicate (n : ℕ) (c : ℝ) (hn : n ≠ 0) :
    meanR (List.replicate n c) = c := by
  rw [meanR, List.sum_replicate, List.length_replicate, nsmul_eq_mul,
    mul_div_cancel_left₀ _ (by exact_mod_cast hn : (n : ℝ) ≠ 0)]

lemma rmsL_replicate (n : ℕ) (c : ℝ) (hn : n ≠ 0) (hc : 0 ≤ c) :
    rmsL (List.replicate n c) = c := by
  rw [rmsL, List.map_replicate, List.sum_replicate, List.length_replicate,
    nsmul_eq_mul, mul_div_cancel_left₀ _ (by exact_mod_cast hn : (n : ℝ) ≠ 0),
    Real.sqrt_mul_self hc]

lemma stdL_replicate (n : ℕ) (c : ℝ) (hn : n ≠ 0) :
    stdL (List.replicate n c) = 0 := by
  rw [stdL, meanR_replicate n c hn, List.map_replicate, sub_self,
    zero_pow (by norm_num), List.sum_replicate, smul_zero, zero_div,
    Real.sqrt_zero]

/-- Shape of a buffer-filling step: no baseline yet and not enough
samples to learn one. -/
lemma vibeStep_fill (s : VibeState) (mag : ℝ) (hready : s.ready = false)
    (hwin : (dequePush (ACCEL_WINDOW_SAMPLES * 3) s.buf mag).length <
      ACCEL_BASELINE_SAMPLES) :
    vibeStep s mag =
      ⟨⟨dequePush (ACCEL_WINDOW_SAMPLES * 3) s.buf mag, s.ready, s.baseMean,
        s.baseStd, s.high, s.clr⟩, False, False⟩ := by
  rw [vibeStep, hready]
  simp only [Bool.false_eq_true, if_false]
  rw [if_neg (by omega)]

/-- Shape of the baseline-learning step: buffer full enough and the
recent RMS above the run threshold. -/
lemma vibeStep_learn (s : VibeState) (mag : ℝ) (hready : s.ready = false)
    (hwin : ACCEL_BASELINE_SAMPLES ≤
      (dequePush (ACCEL_WINDOW_SAMPLES * 3) s.buf mag).length)
    (hrun : ACCEL_RUN_MAG_THRESHOLD <
      rmsL (lastN (dequePush (ACCEL_WINDOW_SAMPLES * 3) s.buf mag)
        ACCEL_BASELINE_SAMPLES)) :
    vibeStep s mag =
      ⟨⟨dequePush (ACCEL_WINDOW_SAMPLES * 3) s.buf mag, true,
        meanR (lastN (dequePush (ACCEL_WINDOW_SAMPLES * 3) s.buf mag)
          ACCEL_BASELINE_SAMPLES),
        max (stdL (lastN (dequePush (ACCEL_WINDOW_SAMPLES * 3) s.buf mag)
          ACCEL_BASELINE_SAMPLES)) (1e-6), 0, 0⟩, False, False⟩ := by
  rw [vibeStep, hready]
  simp only [Bool.false_eq_true, if_false]
  rw [if_pos hwin, if_pos hrun]

/-- Shape of an evaluation step (baseline ready, window full): what the
warning and clearing flags mean and how the state advances when no clear
fires. -/
lemma vibeStep_eval (s : VibeState) (mag : ℝ) (hready : s.ready = true)
    (hwin : ACCEL_WINDOW_SAMPLES ≤
      (dequePush (ACCEL_WINDOW_SAMPLES * 3) s.buf mag).length) :
    ((vibeStep s mag).warned ↔
      3 ≤ (if vibeThreshold s < vibeRms s mag then s.high + 1 else 0)) ∧
    ((vibeStep s mag).cleared ↔
      (20 ≤ (if vibeThreshold s < vibeRms s mag then 0 else s.clr + 1) ∧
        vibeRms s mag < ACCEL_RUN_MAG_THRESHOLD / 2)) ∧
    (¬ (vibeStep s mag).cleared →
      (vibeStep s mag).state =
        ⟨dequePush (ACCEL_WINDOW_SAMPLES * 3) s.buf mag, true, s.baseMean,
          s.baseStd,
          (if vibeThreshold s < vibeRms s mag then s.high + 1 else 0),
          (if vibeThreshold s < vibeRms s mag then 0 else s.clr + 1)⟩) := by
  rw [vibeStep, hready]
  simp only [if_true]
  rw [if_pos hwin]
  by_cases hcl : (20 ≤ (if vibeThreshold s < vibeRms s mag then 0
      else s.clr + 1) ∧ vibeRms s mag < ACCEL_RUN_MAG_THRESHOLD / 2)
  · rw [if_pos hcl]
    refine ⟨Iff.rfl, ?_, ?_⟩
    · simp only [true_iff]
      exact hcl
    · intro h
      exact absurd trivial h
  · rw [if_neg hcl]
    refine ⟨Iff.rfl, ?_, fun _ => rfl⟩
    simp only [false_iff]
    exact hcl

end FaultDetector

namespace FaultDetector

lemma cexMags_low (n : ℕ) (h : n < 60) : cexMags n = 0.06 := if_pos h

lemma cexMags_high (n : ℕ) (h : 60 ≤ n) : cexMags n = 0.065 :=
  if_neg (by omega)

/-- During the first 59 samples of the counterexample trace the monitor
only fills its buffer. -/
lemma cex_fill (n : ℕ) (hn : n ≤ 59) :
    vibeIter vibeInit cexMags n =
      ⟨List.replicate n (0.06 : ℝ), false, 0, 0, 0, 0⟩ := by
  induction n with
  | zero => rfl
  | succ m ih =>
    rw [vibeIter, ih (by omega), cexMags_low m (by omega)]
    have hpush : dequePush (ACCEL_WINDOW_SAMPLES * 3)
        (List.replicate m (0.06 : ℝ)) 0.06 = List.replicate (m + 1) 0.06 := by
      rw [dequePush_eq_append _ _ _ (by
        rw [List.length_replicate]
        simp only [ACCEL_WINDOW_SAMPLES]
        omega)]
      exact (List.replicate_succ' _ _).symm
    have hwin : (dequePush (ACCEL_WINDOW_SAMPLES * 3)
        (List.replicate m (0.06 : ℝ)) 0.06).length < ACCEL_BASELINE_SAMPLES := by
      rw [dequePush_length, List.length_replicate]
      simp only [ACCEL_WINDOW_SAMPLES, ACCEL_BASELINE_SAMPLES]
      omega
    rw [vibeStep_fill ⟨List.replicate m (0.06 : ℝ), false, 0, 0, 0, 0⟩ 0.06
      rfl hwin]
    rw [hpush]

/-- At sample 60 the buffer holds sixty samples of 0.06 g, the recent RMS
is 0.06 > 0.05, and a baseline is learned with mean 0.06 and the clamped
standard deviation 1e-6. -/
lemma cex_state60 :
    vibeIter vibeInit cexMags 60 =
      ⟨List.replicate 60 (0.06 : ℝ), true, 0.06, 1e-6, 0, 0⟩ := by
  rw [show (60 : ℕ) = 59 + 1 from rfl, vibeIter, cex_fill 59 (by omega),
    cexMags_low 59 (by omega)]
  have hpush : dequePush (ACCEL_WINDOW_SAMPLES * 3)
      (List.replicate 59 (0.06 : ℝ)) 0.06 = List.replicate 60 0.06 := by
    rw [dequePush_eq_append _ _ _ (by
      rw [List.length_replicate]
      simp only [ACCEL_WINDOW_SAMPLES]
      omega)]
    exact (List.replicate_succ' _ _).symm
  have hwin : ACCEL_BASELINE_SAMPLES ≤
      (dequePush (ACCEL_WINDOW_SAMPLES * 3)
        (List.replicate 59 (0.06 : ℝ)) 0.06).length := by
    rw [hpush, List.length_replicate]
    simp only [ACCEL_BASELINE_SAMPLES]
    omega
  have hlast : lastN (dequePush (ACCEL_WINDOW_SAMPLES * 3)
      (List.replicate 59 (0.06 : ℝ)) 0.06) ACCEL_BASELINE_SAMPLES =
      List.replicate 60 (0.06 : ℝ) := by
    rw [hpush]
    exact lastN_full _ _ (by rw [List.length_replicate]; rfl)
  have hrun : ACCEL_RUN_MAG_THRESHOLD <
      rmsL (lastN (dequePush (ACCEL_WINDOW_SAMPLES * 3)
        (List.replicate 59 (0.06 : ℝ)) 0.06) ACCEL_BASELINE_SAMPLES) := by
    rw [hlast, rmsL_replicate 60 0.06 (by omega) (by norm_num)]
    rw [ACCEL_RUN_MAG_THRESHOLD]
    norm_num
  rw [vibeStep_learn ⟨List.replicate 59 (0.06 : ℝ), false, 0, 0, 0, 0⟩ 0.06
    rfl hwin hrun, hpush]
  rw [lastN_full _ _ (by rw [List.length_replicate]; rfl)]
  rw [meanR_replicate 60 0.06 (by omega), stdL_replicate 60 0.06 (by omega)]
  rw [max_eq_right (by norm_num : (0 : ℝ) ≤ 1e-6)]

end FaultDetector

namespace FaultDetector

lemma rms_mix (a b : ℝ) (m k : ℕ) :
    rmsL (List.replicate m a ++ List.replicate k b) =
      Real.sqrt (((m : ℝ) * (a * a) + (k : ℝ) * (b * b)) /
        ((m : ℝ) + (k : ℝ))) := by
  rw [rmsL, List.map_append, List.map_replicate, List.map_replicate,
    List.sum_append, List.sum_replicate, List.sum_replicate,
    List.length_append, List.length_replicate, List.length_replicate]
  congr 1
  rw [nsmul_eq_mul, nsmul_eq_mul]
  push_cast
  ring

lemma lastN_rep_app (a b : ℝ) (k : ℕ) (hk : k ≤ 60) :
    lastN (List.replicate 60 a ++ List.replicate k b) 60 =
      List.replicate (60 - k) a ++ List.replicate k b := by
  rw [lastN, List.length_append, List.length_replicate, List.length_replicate,
    show 60 + k - 60 = k from by omega,
    List.drop_append_of_le_length (by rw [List.length_replicate]; omega)]
  rw [List.drop_replicate]

lemma cex_push_eval (k : ℕ) (hk : k ≤ 3) :
    dequePush (ACCEL_WINDOW_SAMPLES * 3)
      (List.replicate 60 (0.06 : ℝ) ++ List.replicate k 0.065) 0.065 =
      List.replicate 60 (0.06 : ℝ) ++ List.replicate (k + 1) 0.065 := by
  rw [dequePush_eq_append _ _ _ (by
    rw [List.length_append, List.length_replicate, List.length_replicate]
    simp only [ACCEL_WINDOW_SAMPLES]
    omega)]
  rw [List.append_assoc]
  congr 1
  exact (List.replicate_succ' _ _).symm

lemma vibeThreshold_eval (buf : List ℝ) (h c : ℕ) :
    vibeThreshold ⟨buf, true, 0.06, 1e-6, h, c⟩ = 0.07 := by
  rw [vibeThreshold]
  dsimp only
  rw [ACCEL_FLOOR_G, ACCEL_SIGMA_MULTIPLIER]
  rw [max_eq_left (by norm_num)]
  norm_num

/-- At each evaluation on the counterexample trace the window RMS exceeds
the claim's `mean + 2σ` threshold but not the code's floored threshold
`mean + max(0.01, 2σ)`. -/
lemma cex_eval_rms (k : ℕ) (hk : k ≤ 2) :
    (0.06 + 2 * 1e-6 : ℝ) <
      vibeRms ⟨List.replicate 60 (0.06 : ℝ) ++ List.replicate k 0.065,
        true, 0.06, 1e-6, 0, k⟩ 0.065 ∧
    ¬ (vibeThreshold ⟨List.replicate 60 (0.06 : ℝ) ++ List.replicate k 0.065,
        true, 0.06, 1e-6, 0, k⟩ <
      vibeRms ⟨List.replicate 60 (0.06 : ℝ) ++ List.replicate k 0.065,
        true, 0.06, 1e-6, 0, k⟩ 0.065) := by
  have hrms : vibeRms ⟨List.replicate 60 (0.06 : ℝ) ++ List.replicate k 0.065,
      true, 0.06, 1e-6, 0, k⟩ 0.065 =
      Real.sqrt ((((60 - (k + 1) : ℕ) : ℝ) * (0.06 * 0.06) +
        ((k + 1 : ℕ) : ℝ) * (0.065 * 0.065)) /
        (((60 - (k + 1) : ℕ) : ℝ) + ((k + 1 : ℕ) : ℝ))) := by
    rw [vibeRms]
    dsimp only
    rw [cex_push_eval k (by omega)]
    rw [show lastN (List.replicate 60 (0.06 : ℝ) ++
        List.replicate (k + 1) 0.065) ACCEL_WINDOW_SAMPLES =
        List.replicate (60 - (k + 1)) (0.06 : ℝ) ++
          List.replicate (k + 1) 0.065 from
      lastN_rep_app 0.06 0.065 (k + 1) (by omega)]
    exact rms_mix 0.06 0.065 (60 - (k + 1)) (k + 1)
  have hcast1 : ((60 - (k + 1) : ℕ) : ℝ) = 60 - ((k : ℝ) + 1) := by
    rw [Nat.cast_sub (by omega)]
    push_cast
    ring
  have hcast2 : ((k + 1 : ℕ) : ℝ) = (k : ℝ) + 1 := by push_cast; ring
  have hx0 : (0 : ℝ) ≤ (k : ℝ) := Nat.cast_nonneg k
  have hx2 : (k : ℝ) ≤ 2 := by exact_mod_cast hk
  constructor
  · rw [hrms, hcast1, hcast2]
    rw [show (60 : ℝ) - ((k : ℝ) + 1) + ((k : ℝ) + 1) = 60 by ring]
    refine (Real.lt_sqrt (by norm_num)).mpr ?_
    nlinarith
  · rw [vibeThreshold_eval, hrms, hcast1, hcast2]
    rw [show (60 : ℝ) - ((k : ℝ) + 1) + ((k : ℝ) + 1) = 60 by ring]
    refine not_lt.mpr ?_
    have hle : ((60 : ℝ) - ((k : ℝ) + 1)) * (0.06 * 0.06) +
        ((k : ℝ) + 1) * (0.065 * 0.065) ≤ 60 * ((0.07 : ℝ) * 0.07) := by
      nlinarith
    calc Real.sqrt ((((60 : ℝ) - ((k : ℝ) + 1)) * (0.06 * 0.06) +
          ((k : ℝ) + 1) * (0.065 * 0.065)) / 60)
        ≤ Real.sqrt ((0.07 : ℝ) ^ 2) := by
          refine Real.sqrt_le_sqrt ?_
          rw [div_le_iff₀ (by norm_num)]
          nlinarith
      _ = 0.07 := Real.sqrt_sq (by norm_num)

end FaultDetector

namespace FaultDetector

lemma cex_eval_window (m : ℕ) (hm : m ≤ 3) :
    ACCEL_WINDOW_SAMPLES ≤
      (dequePush (ACCEL_WINDOW_SAMPLES * 3)
        (List.replicate 60 (0.06 : ℝ) ++ List.replicate m 0.065)
        0.065).length := by
  rw [cex_push_eval m hm, List.length_append, List.length_replicate,
    List.length_replicate]
  simp only [ACCEL_WINDOW_SAMPLES]
  omega

/-- Along the counterexample trace, after the baseline is learned the
states keep the baseline `mean = 0.06, σ = 1e-6`, never exceed the coded
threshold, and count clear evaluations. -/
lemma cex_state_60k (k : ℕ) (hk : k ≤ 3) :
    vibeIter vibeInit cexMags (60 + k) =
      ⟨List.replicate 60 (0.06 : ℝ) ++ List.replicate k 0.065,
        true, 0.06, 1e-6, 0, k⟩ := by
  induction k with
  | zero =>
    rw [Nat.add_zero, cex_state60]
    simp
  | succ m ihm =>
    rw [show 60 + (m + 1) = (60 + m) + 1 from rfl, vibeIter,
      ihm (by omega), cexMags_high (60 + m) (by omega)]
    have hrms := cex_eval_rms m (by omega)
    obtain ⟨hw, hc, hstate⟩ :=
      vibeStep_eval ⟨List.replicate 60 (0.06 : ℝ) ++ List.replicate m 0.065,
        true, 0.06, 1e-6, 0, m⟩ 0.065 rfl (cex_eval_window m (by omega))
    have hncl : ¬ (vibeStep
        ⟨List.replicate 60 (0.06 : ℝ) ++ List.replicate m 0.065,
          true, 0.06, 1e-6, 0, m⟩ 0.065).cleared := by
      rw [hc]
      rintro ⟨h20, _⟩
      rw [if_neg hrms.2] at h20
      dsimp only at h20
      omega
    rw [hstate hncl]
    simp only [if_neg hrms.2]
    rw [cex_push_eval m (by omega)]

/-- No warning is raised at evaluations 60, 61 or 62 of the
counterexample trace. -/
lemma cex_no_warn (k : ℕ) (hk : k ≤ 2) :
    ¬ (vibeStepAt vibeInit cexMags (60 + k)).warned := by
  rw [vibeStepAt, cex_state_60k k (by omega),
    cexMags_high (60 + k) (by omega)]
  obtain ⟨hw, _, _⟩ :=
    vibeStep_eval ⟨List.replicate 60 (0.06 : ℝ) ++ List.replicate k 0.065,
      true, 0.06, 1e-6, 0, k⟩ 0.065 rfl (cex_eval_window k (by omega))
  rw [hw, if_neg (cex_eval_rms k hk).2]
  omega

/-- At evaluations 60, 61 and 62 of the counterexample trace the window
RMS exceeds the claim's threshold `baseline_mean + k·baseline_std`. -/
lemma cex_claim_exceed (k : ℕ) (hk : k ≤ 2) :
    (vibeIter vibeInit cexMags (60 + k)).baseMean +
      ACCEL_SIGMA_MULTIPLIER * (vibeIter vibeInit cexMags (60 + k)).baseStd <
      vibeRmsAt vibeInit cexMags (60 + k) := by
  rw [vibeRmsAt, cex_state_60k k (by omega), cexMags_high (60 + k) (by omega)]
  dsimp only
  have h := (cex_eval_rms k hk).1
  rw [ACCEL_SIGMA_MULTIPLIER]
  calc (0.06 : ℝ) + 2.0 * 1e-6 = 0.06 + 2 * 1e-6 := by norm_num
    _ < _ := h

end FaultDetector

/-- C9 (counterexample): a trace of sixty 0.06 g samples followed by
0.065 g samples learns a baseline with mean 0.06 and clamped σ = 1e-6;
the window RMS then exceeds `baseline_mean + 2·baseline_std` at three
consecutive evaluations (60, 61, 62), so the claim requires a
high-vibration warning at evaluation 62 — but the code raises none,
because its actual threshold is `baseline_mean + max(0.01, 2σ)` and the
RMS stays below `0.06 + 0.01`. -/
theorem vibration_warning_missing_floor :
    (vibeIter vibeInit cexMags 60).ready = true ∧
    (vibeIter vibeInit cexMags 60).baseMean = 0.06 ∧
    (vibeIter vibeInit cexMags 60).baseStd = 1e-6 ∧
    ((vibeIter vibeInit cexMags 60).baseMean +
      ACCEL_SIGMA_MULTIPLIER * (vibeIter vibeInit cexMags 60).baseStd <
      vibeRmsAt vibeInit cexMags 60) ∧
    ((vibeIter vibeInit cexMags 61).baseMean +
      ACCEL_SIGMA_MULTIPLIER * (vibeIter vibeInit cexMags 61).baseStd <
      vibeRmsAt vibeInit cexMags 61) ∧
    ((vibeIter vibeInit cexMags 62).baseMean +
      ACCEL_SIGMA_MULTIPLIER * (vibeIter vibeInit cexMags 62).baseStd <
      vibeRmsAt vibeInit cexMags 62) ∧
    ¬ (vibeStepAt vibeInit cexMags 60).warned ∧
    ¬ (vibeStepAt vibeInit cexMags 61).warned ∧
    ¬ (vibeStepAt vibeInit cexMags 62).warned :=
  ⟨by rw [cex_state60], by rw [cex_state60], by rw [cex_state60],
   cex_claim_exceed 0 (by omega),
   cex_claim_exceed 1 (by omega),
   cex_claim_exceed 2 (by omega),
   cex_no_warn 0 (by omega),
   cex_no_warn 1 (by omega),
   cex_no_warn 2 (by omega)⟩

namespace FaultDetector

/-- The consecutive counter reaches `k` at step `n` exactly when the last
`k` steps before `n` all satisfied `P`. -/
lemma le_trailingRun_iff (P : ℕ → Prop) :
    ∀ (n k : ℕ), k ≤ trailingRun P n ↔
      (k ≤ n ∧ ∀ j, n - k ≤ j → j < n → P j) := by
  intro n
  induction n with
  | zero =>
    intro k
    rw [trailingRun]
    constructor
    · intro h
      exact ⟨h, fun j _ hj => absurd hj (Nat.not_lt_zero j)⟩
    · intro h
      exact h.1
  | succ n ih =>
    intro k
    rw [trailingRun]
    by_cases hP : P n
    · rw [if_pos hP]
      cases k with
      | zero =>
        constructor
        · intro _
          exact ⟨Nat.zero_le _, fun j hj hj' => absurd hj' (by omega)⟩
        · intro _
          exact Nat.zero_le _
      | succ m =>
        rw [Nat.succ_le_succ_iff, ih m]
        constructor
        · rintro ⟨hm, hall⟩
          refine ⟨by omega, fun j hj hj' => ?_⟩
          rcases Nat.lt_succ_iff_lt_or_eq.mp hj' with h | rfl
          · exact hall j (by omega) h
          · exact hP
        · rintro ⟨hm, hall⟩
          exact ⟨by omega, fun j hj hj' => hall j (by omega) (by omega)⟩
    · rw [if_neg hP]
      cases k with
      | zero =>
        constructor
        · intro _
          exact ⟨Nat.zero_le _, fun j hj hj' => absurd hj' (by omega)⟩
        · intro _
          exact Nat.zero_le _
      | succ m =>
        constructor
        · intro h
          exact absurd h (by omega)
        · rintro ⟨hm, hall⟩
          exact absurd (hall n (by omega) (by omega)) hP

/-- Invariant of a post-baseline run with no clearing: the baseline is
retained, every step is a full-window evaluation, and the two
consecutive-evaluation counters equal the trailing run lengths of the
exceed / non-exceed predicates. -/
lemma vibe_run_invariant (s : VibeState) (mags : ℕ → ℝ)
    (hready : s.ready = true) (hhigh : s.high = 0) (hclr : s.clr = 0)
    (hbuf : ACCEL_WINDOW_SAMPLES ≤ s.buf.length) :
    ∀ n, (∀ k, k < n → ¬ (vibeStepAt s mags k).cleared) →
      (vibeIter s mags n).ready = true ∧
      (vibeIter s mags n).baseMean = s.baseMean ∧
      (vibeIter s mags n).baseStd = s.baseStd ∧
      ACCEL_WINDOW_SAMPLES ≤ (vibeIter s mags n).buf.length ∧
      (vibeIter s mags n).high = trailingRun (vibeExceedAt s mags) n ∧
      (vibeIter s mags n).clr =
        trailingRun (fun j => ¬ vibeExceedAt s mags j) n := by
  intro n
  induction n with
  | zero =>
    intro _
    refine ⟨hready, rfl, rfl, hbuf, ?_, ?_⟩
    · rw [trailingRun]; exact hhigh
    · rw [trailingRun]; exact hclr
  | succ n ih =>
    intro hnc
    obtain ⟨hr, hbm, hbs, hbl, hhi, hcl⟩ := ih (fun k hk => hnc k (by omega))
    have hwin : ACCEL_WINDOW_SAMPLES ≤
        (dequePush (ACCEL_WINDOW_SAMPLES * 3) (vibeIter s mags n).buf
          (mags n)).length := by
      rw [dequePush_length]
      simp only [ACCEL_WINDOW_SAMPLES] at hbl ⊢
      omega
    obtain ⟨hw, hc, hst⟩ := vibeStep_eval (vibeIter s mags n) (mags n) hr hwin
    have hncl : ¬ (vibeStep (vibeIter s mags n) (mags n)).cleared :=
      hnc n (by omega)
    rw [vibeIter, hst hncl]
    dsimp only
    refine ⟨rfl, hbm, hbs, ?_, ?_, ?_⟩
    · rw [dequePush_length]
      simp only [ACCEL_WINDOW_SAMPLES] at hbl ⊢
      omega
    · rw [trailingRun]
      by_cases hE : vibeThreshold (vibeIter s mags n) <
        vibeRms (vibeIter s mags n) (mags n)
      · rw [if_pos hE, if_pos (show vibeExceedAt s mags n from hE), hhi]
      · rw [if_neg hE, if_neg (show ¬ vibeExceedAt s mags n from hE)]
    · rw [trailingRun]
      by_cases hE : vibeThreshold (vibeIter s mags n) <
        vibeRms (vibeIter s mags n) (mags n)
      · rw [if_pos hE, if_neg (show ¬ ¬ vibeExceedAt s mags n from
          not_not_intro hE)]
      · rw [if_neg hE, if_pos (show ¬ vibeExceedAt s mags n from hE), hcl]

end FaultDetector

/-- C9 (amended): once a vibration baseline is learned (and until the
baseline is cleared), a high-vibration warning is raised at an evaluation
if and only if the sliding-window RMS has exceeded
`baseline_mean + max(0.01, k·baseline_std)` (k default 2; the code
applies the floor `ACCEL_FLOOR_G = 0.01` to the sigma band) at that
evaluation and the two before it — at least 3 consecutive evaluations;
and the baseline is cleared for relearning at an evaluation if and only if
the RMS stayed at or below that same warning threshold for at least 20
consecutive evaluations (not below half the run threshold, as claimed)
and the current RMS is below half the run-detection threshold. -/
theorem vibration_warning_and_clear_iff (s : VibeState) (mags : ℕ → ℝ)
    (hready : s.ready = true) (hhigh : s.high = 0) (hclr : s.clr = 0)
    (hbuf : ACCEL_WINDOW_SAMPLES ≤ s.buf.length) (n : ℕ)
    (hnc : ∀ k, k < n → ¬ (vibeStepAt s mags k).cleared) :
    ((vibeStepAt s mags n).warned ↔
      (2 ≤ n ∧ ∀ j, n - 2 ≤ j → j ≤ n → vibeExceedAt s mags j)) ∧
    ((vibeStepAt s mags n).cleared ↔
      (19 ≤ n ∧ (∀ j, n - 19 ≤ j → j ≤ n → ¬ vibeExceedAt s mags j) ∧
        vibeRmsAt s mags n < ACCEL_RUN_MAG_THRESHOLD / 2)) := by
  obtain ⟨hr, hbm, hbs, hbl, hhi, hcl⟩ :=
    vibe_run_invariant s mags hready hhigh hclr hbuf n hnc
  have hwin : ACCEL_WINDOW_SAMPLES ≤
      (dequePush (ACCEL_WINDOW_SAMPLES * 3) (vibeIter s mags n).buf
        (mags n)).length := by
    rw [dequePush_length]
    simp only [ACCEL_WINDOW_SAMPLES] at hbl ⊢
    omega
  obtain ⟨hw, hc, -⟩ := vibeStep_eval (vibeIter s mags n) (mags n) hr hwin
  constructor
  · show (vibeStep (vibeIter s mags n) (mags n)).warned ↔ _
    rw [hw]
    by_cases hE : vibeThreshold (vibeIter s mags n) <
      vibeRms (vibeIter s mags n) (mags n)
    · rw [if_pos hE, hhi]
      have htr : trailingRun (vibeExceedAt s mags) n + 1 =
          trailingRun (vibeExceedAt s mags) (n + 1) := by
        rw [trailingRun, if_pos (show vibeExceedAt s mags n from hE)]
      rw [htr, le_trailingRun_iff]
      constructor
      · rintro ⟨h3, hall⟩
        exact ⟨by omega, fun j hj hj' => hall j (by omega) (by omega)⟩
      · rintro ⟨h2, hall⟩
        exact ⟨by omega, fun j hj hj' => hall j (by omega) (by omega)⟩
    · rw [if_neg hE]
      constructor
      · intro h
        exact absurd h (by omega)
      · rintro ⟨h2, hall⟩
        exact absurd (hall n (by omega) (by omega))
          (show ¬ vibeExceedAt s mags n from hE)
  · show (vibeStep (vibeIter s mags n) (mags n)).cleared ↔ _
    rw [hc]
    by_cases hE : vibeThreshold (vibeIter s mags n) <
      vibeRms (vibeIter s mags n) (mags n)
    · rw [if_pos hE]
      constructor
      · rintro ⟨h20, _⟩
        exact absurd h20 (by omega)
      · rintro ⟨h19, hall, _⟩
        exact absurd (show vibeExceedAt s mags n from hE)
          (hall n (by omega) (by omega))
    · rw [if_neg hE, hcl]
      have htr : trailingRun (fun j => ¬ vibeExceedAt s mags j) n + 1 =
          trailingRun (fun j => ¬ vibeExceedAt s mags j) (n + 1) := by
        rw [trailingRun, if_pos (show ¬ vibeExceedAt s mags n from hE)]
      rw [htr, le_trailingRun_iff]
      constructor
      · rintro ⟨⟨h20, hall⟩, hrms⟩
        exact ⟨by omega, fun j hj hj' => hall j (by omega) (by omega), hrms⟩
      · rintro ⟨h19, hall, hrms⟩
        exact ⟨⟨by omega, fun j hj hj' => hall j (by omega) (by omega)⟩, hrms⟩

/-- Witness for C9's amended theorem: applied at 0 steps past a freshly
learned baseline over a constant 0.06 g stream — no warning and no clear
can have occurred yet. -/
theorem vibration_warning_and_clear_iff_witness :
    ¬ (vibeStepAt ⟨List.replicate 60 (0.06 : ℝ), true, 0.06, 1e-6, 0, 0⟩
        (fun _ => 0.06) 0).warned ∧
    ¬ (vibeStepAt ⟨List.replicate 60 (0.06 : ℝ), true, 0.06, 1e-6, 0, 0⟩
        (fun _ => 0.06) 0).cleared := by
  have h := vibration_warning_and_clear_iff
    ⟨List.replicate 60 (0.06 : ℝ), true, 0.06, 1e-6, 0, 0⟩ (fun _ => 0.06)
    rfl rfl rfl
    (by rw [List.length_replicate]; simp only [ACCEL_WINDOW_SAMPLES]; omega)
    0 (fun k hk => absurd hk (Nat.not_lt_zero k))
  exact ⟨fun hw => absurd (h.1.mp hw).1 (by omega),
    fun hcl => absurd (h.2.mp hcl).1 (by omega)⟩
